import Mathlib

set_option maxRecDepth 8192

/-!
Shallow embedding of `main.py` of the HomDGCat mirror tool.

Strings of the Python source are modelled as `List Char`; raw byte
sequences (downloaded bodies, file contents) as `List Nat`.  Filesystem
paths are modelled as lists of path segments (`List (List Char)`), an
absolute path being the segment list from the filesystem root.  The
effectful parts (network, filesystem) are modelled by explicit oracles
(`DlEnv`, `SrvEnv`) together with an event trace (`Ev`) recording every
filesystem or network access the Python code performs; `Path.resolve`
style canonicalisation is modelled as the pure segment normalisation
`normJoin` (symbolic links are out of scope), matching the spec's view of
PathGuard as pure.
-/

namespace HomDGCat

/-- Python `str.split(sep)` for a one-character separator, on `List Char`. -/
def splitSep (sep : Char) (s : List Char) : List (List Char) :=
  s.foldr
    (fun c acc =>
      if c = sep then [] :: acc
      else
        match acc with
        | [] => [[c]]
        | a :: as => (c :: a) :: as)
    [[]]

/-- Segments of a relative path string: split on the path separator. -/
def segsOf (s : List Char) : List (List Char) := splitSep '/' s

/-- Canonicalisation of `root / segs` as performed by `Path.resolve()`:
empty and `.` segments vanish, `..` pops one segment (staying at the
filesystem root when there is nothing to pop). -/
def normJoin (root : List (List Char)) (segs : List (List Char)) : List (List Char) :=
  segs.foldl
    (fun acc s =>
      if s = [] ∨ s = ['.'] then acc
      else if s = ['.', '.'] then acc.dropLast
      else acc ++ [s])
    root

/-- `resolved.relative_to(root)` succeeds iff `root` is a component-wise
prefix of the resolved path. -/
def isUnder : List (List Char) → List (List Char) → Bool
  | [], _ => true
  | _ :: _, [] => false
  | r :: rs, p :: ps => if r = p then isUnder rs ps else false

/-- The local path a manifest entry resolves to: `SITE_DIR / entry`, canonicalised. -/
def targetOf (root : List (List Char)) (p : List Char) : List (List Char) :=
  normJoin root (segsOf p)

/-- Python `str.endswith`. -/
def endsWithL (s suf : List Char) : Bool :=
  if suf.length ≤ s.length then decide (s.drop (s.length - suf.length) = suf) else false

/-- Lowercase hex digit for a value below 16 (as in Python `"%x"`). -/
def hexChar (n : Nat) : Char :=
  if n < 10 then Char.ofNat (48 + n) else Char.ofNat (87 + n)

/-- Fuel-driven base-`b` digit expansion (most significant first), with
digits below the base rendered by `hexChar`. -/
def baseDigits (b : Nat) : Nat → Nat → List Char
  | 0, _ => []
  | fuel + 1, n => if n < b then [hexChar n] else baseDigits b fuel (n / b) ++ [hexChar (n % b)]

/-- Python `f"{n:x}"` for a natural number. -/
def hexRep (n : Nat) : List Char := baseDigits 16 (n + 1) n

/-- Python `str(n)` for a natural number. -/
def decRep (n : Nat) : List Char := baseDigits 10 (n + 1) n

/-- `_make_etag`: `'"{mtime_ns:x}-{size:x}"'`, a function of mtime and size only. -/
def mkEtag (mtimeNs size : Nat) : List Char :=
  '"' :: (hexRep mtimeNs ++ ('-' :: (hexRep size ++ ['"'])))

/-- Python whitespace as stripped by `str.strip()`. -/
def isPySpace (c : Char) : Bool :=
  decide (c ∈ [' ', '\t', '\n', '\r', Char.ofNat 11, Char.ofNat 12])

/-- Python `str.strip()`. -/
def trimPy (s : List Char) : List Char :=
  ((s.dropWhile isPySpace).reverse.dropWhile isPySpace).reverse

/-- The `If-None-Match` test of `_serve_file`:
`if_none and etag in (t.strip() for t in if_none.split(","))`. -/
def inmMatches (ifNone : Option (List Char)) (etag : List Char) : Bool :=
  match ifNone with
  | none => false
  | some s => !(decide (s = [])) && (splitSep ',' s).any (fun t => decide (trimPy t = etag))

/-- Python substring test `pat in l` (`startsWithL` is the prefix test). -/
def startsWithL : List Char → List Char → Bool
  | _, [] => true
  | [], _ :: _ => false
  | c :: cs, p :: ps => if c = p then startsWithL cs ps else false

/-- Python substring test `pat in l`. -/
def containsSeq (pat : List Char) : List Char → Bool
  | [] => decide (pat = [])
  | c :: rest => startsWithL (c :: rest) pat || containsSeq pat rest

/-- Characters Python `urllib.parse.quote` never encodes regardless of `safe`. -/
def alwaysSafe (c : Char) : Bool :=
  c.isAlphanum || decide (c ∈ ['_', '.', '-', '~'])

/-- The `safe=` parameter of the `quote` call in `download_one`:
`"/:@!$&'()*+,;=-._~%"`. -/
def extraSafe : List Char := "/:@!$&".data ++ [Char.ofNat 39] ++ "()*+,;=-._~%".data

/-- A character the `quote` call in `download_one` leaves unchanged. -/
def safeChar (c : Char) : Bool := alwaysSafe c || decide (c ∈ extraSafe)

/-- Uppercase hex digit, as used by `quote`'s percent escapes. -/
def hexUpChar (n : Nat) : Char :=
  if n < 10 then Char.ofNat (48 + n) else Char.ofNat (55 + n)

/-- UTF-8 encoding of one character (`quote` encodes to UTF-8 before escaping). -/
def utf8Bytes (c : Char) : List Nat :=
  let n := c.toNat
  if n < 128 then [n]
  else if n < 2048 then [192 + n / 64, 128 + n % 64]
  else if n < 65536 then [224 + n / 4096, 128 + (n / 64) % 64, 128 + n % 64]
  else [240 + n / 262144, 128 + (n / 4096) % 64, 128 + (n / 64) % 64, 128 + n % 64]

/-- Percent escape of one non-safe character. -/
def pctEnc (c : Char) : List Char :=
  (utf8Bytes c).foldr (fun b acc => '%' :: hexUpChar (b / 16) :: hexUpChar (b % 16) :: acc) []

/-- `urllib.parse.quote(s, safe="/:@!$&'()*+,;=-._~%")`. -/
def pquote : List Char → List Char
  | [] => []
  | c :: rest => if safeChar c then c :: pquote rest else pctEnc c ++ pquote rest

/-- Hex-digit test used by `unquote`. -/
def isHexD (c : Char) : Bool :=
  decide (('0' ≤ c ∧ c ≤ '9') ∨ ('A' ≤ c ∧ c ≤ 'F') ∨ ('a' ≤ c ∧ c ≤ 'f'))

/-- Numeric value of a hex digit. -/
def hexVal (c : Char) : Nat :=
  if c.toNat ≤ 57 then c.toNat - 48 else if c.toNat ≤ 70 then c.toNat - 55 else c.toNat - 87

/-- `urllib.parse.unquote`, modelled byte-wise: each valid `%XX` escape
becomes the character of that byte value (multi-byte UTF-8 sequences are
modelled one character per byte); invalid escapes stay literal. -/
def unquoteL : List Char → List Char
  | [] => []
  | '%' :: a :: b :: rest =>
    if isHexD a && isHexD b then Char.ofNat (16 * hexVal a + hexVal b) :: unquoteL rest
    else '%' :: unquoteL (a :: b :: rest)
  | c :: rest => c :: unquoteL rest

/-! ## Fetch engine (`download_one`, `_file_ok`, `cmd_download`, `cmd_status`) -/

/-- Result of one `urllib.request.urlopen` attempt. -/
inductive NetResult
  | ok (body : List Nat)
  | httpErr (code : Nat) (desc : List Char)
  | exc (desc : List Char)
deriving DecidableEq

/-- Outcome triple of `download_one`, without the echoed path:
`True` = `fetched`, `None` = `present`, `False` = `failedR`. -/
inductive DlOutcome
  | fetched (total : Nat)
  | present
  | failedR (msg : List Char)
deriving DecidableEq

/-- One filesystem or network access performed by the code. -/
inductive Ev
  | statTarget
  | mkdirParents
  | netReq (url : List Char)
  | sleepEv (n : Nat)
  | writeTmp (n : Nat)
  | replaceToTarget
  | unlinkTmp
  | statPath (p : List (List Char))
deriving DecidableEq

/-- Download environment: resolved `SITE_DIR` segments, the sizes of
existing local files (keyed by canonical absolute path), and the network
oracle giving the result of attempt number `a`. -/
structure DlEnv where
  root : List (List Char)
  fs : List (List Char) → Option Nat
  net : Nat → NetResult

def pyTraversal : List Char := "path traversal blocked".data

def py404Msg : List Char := "404".data

def pyEmptyMsg : List Char := "empty".data

def pyFailedMsg : List Char := "failed".data

def baseUrlChars : List Char := "https://homdgcat.wiki".data

def indexSuffix : List Char := "/index.html".data

/-- Remote request path of `download_one`: strip a trailing `index.html`
(keeping the slash) and percent-encode. -/
def buildRequestPath (p : List Char) : List Char :=
  pquote (if endsWithL p indexSuffix then p.take (p.length - 10) else p)

/-- The full URL requested for a manifest entry. -/
def fullUrlOf (p : List Char) : List Char := baseUrlChars ++ buildRequestPath p

/-- The retry loop of `download_one`: fuel `k` is the number of attempts
left out of `retries`, so the current attempt index is `retries - k`.
Running out of the loop yields the generic `"failed"` result. -/
def dlLoop (net : Nat → NetResult) (retries : Nat) (url : List Char) : Nat → DlOutcome × List Ev
  | 0 => (DlOutcome.failedR pyFailedMsg, [])
  | k + 1 =>
    match net (retries - (k + 1)) with
    | NetResult.ok body =>
      if 0 < body.length then
        (DlOutcome.fetched body.length,
          [Ev.netReq url, Ev.writeTmp body.length, Ev.replaceToTarget])
      else
        (DlOutcome.failedR pyEmptyMsg, [Ev.netReq url, Ev.writeTmp 0, Ev.unlinkTmp])
    | NetResult.httpErr code _ =>
      if code = 404 then (DlOutcome.failedR py404Msg, [Ev.netReq url, Ev.unlinkTmp])
      else if 0 < k then
        let r := dlLoop net retries url k
        (r.1, Ev.netReq url :: Ev.unlinkTmp :: Ev.sleepEv (2 ^ (retries - (k + 1))) :: r.2)
      else (DlOutcome.failedR pyFailedMsg, [Ev.netReq url, Ev.unlinkTmp])
    | NetResult.exc desc =>
      if 0 < k then
        let r := dlLoop net retries url k
        (r.1, Ev.netReq url :: Ev.unlinkTmp :: Ev.sleepEv (2 ^ (retries - (k + 1))) :: r.2)
      else (DlOutcome.failedR desc, [Ev.netReq url, Ev.unlinkTmp])

/-- The part of `download_one` after the exists check decided to fetch:
`mkdir(parents=True)`, build the request URL, run the attempt loop. -/
def dlFetch (net : Nat → NetResult) (urlPath : List Char) (retries : Nat) : DlOutcome × List Ev :=
  let r := dlLoop net retries (fullUrlOf urlPath) retries
  (r.1, Ev.statTarget :: Ev.mkdirParents :: r.2)

/-- `download_one(url_path, retries)`: traversal guard, already-present
check, then the fetch; the second component is the trace of filesystem
and network accesses. -/
def downloadOne (env : DlEnv) (urlPath : List Char) (retries : Nat) : DlOutcome × List Ev :=
  let target := targetOf env.root urlPath
  if isUnder env.root target then
    match env.fs target with
    | some sz =>
      if 0 < sz then (DlOutcome.present, [Ev.statTarget])
      else dlFetch env.net urlPath retries
    | none => dlFetch env.net urlPath retries
  else (DlOutcome.failedR pyTraversal, [])

/-- `_file_ok`: the entry's resolved path is contained in the root and the
file exists with non-zero size; rejection and resolution errors give `False`. -/
def fileOk (root : List (List Char)) (fs : List (List Char) → Option Nat)
    (p : List Char) : Bool :=
  let t := targetOf root p
  if isUnder root t then
    match fs t with
    | some sz => 0 < sz
    | none => false
  else false

/-- `to_download` of `cmd_download`: the entries `_file_ok` rejects. -/
def pendingOf (root : List (List Char)) (fs : List (List Char) → Option Nat)
    (entries : List (List Char)) : List (List Char) :=
  entries.filter (fun p => !(fileOk root fs p))

/-- Total number of network requests `cmd_download` issues over a run. -/
def netCount (tr : List Ev) : Nat :=
  tr.countP (fun e => match e with | Ev.netReq _ => true | _ => false)

def unlinkCount (tr : List Ev) : Nat :=
  tr.countP (fun e => match e with | Ev.unlinkTmp => true | _ => false)

/-- The back-off sleeps of a trace, in order. -/
def sleepsOf (tr : List Ev) : List Nat :=
  tr.filterMap (fun e => match e with | Ev.sleepEv n => some n | _ => none)

/-- Network requests issued by a whole `cmd_download` run. -/
def runNetCount (env : DlEnv) (entries : List (List Char)) (retries : Nat) : Nat :=
  ((pendingOf env.root env.fs entries).map
    (fun p => netCount (downloadOne env p retries).2)).sum

/-- The `missing` counter of `cmd_status`. -/
def missingCount (root : List (List Char)) (fs : List (List Char) → Option Nat)
    (entries : List (List Char)) : Nat :=
  entries.countP (fun p => !(fileOk root fs p))

/-! ## Outcome aggregation and the failure report (`cmd_download`) -/

/-- The counters of the `cmd_download` result loop. -/
structure Tally where
  success : Nat
  notFound : Nat
  failCount : Nat
  totalBytes : Nat
  failList : List (List Char × List Char)
deriving DecidableEq

/-- One step of the `as_completed` result loop of `cmd_download`. -/
def stepTally (t : Tally) (x : List Char × DlOutcome) : Tally :=
  match x.2 with
  | DlOutcome.fetched n => { t with success := t.success + 1, totalBytes := t.totalBytes + n }
  | DlOutcome.present => t
  | DlOutcome.failedR m =>
    if m = py404Msg then { t with notFound := t.notFound + 1 }
    else { t with failCount := t.failCount + 1, failList := t.failList ++ [(x.1, m)] }

def runTally (os : List (List Char × DlOutcome)) : Tally :=
  os.foldl stepTally ⟨0, 0, 0, 0, []⟩

/-- One line of `download_failures.txt`: `f"{path}\t{info}\n"`. -/
def failLine (pr : List Char × List Char) : List Char :=
  pr.1 ++ '\t' :: (pr.2 ++ ['\n'])

/-- The failure report `cmd_download` writes: `None` when `failed_paths`
is empty, else the concatenated lines. -/
def failReport (os : List (List Char × DlOutcome)) : Option (List Char) :=
  let t := runTally os
  if t.failList = [] then none else some ((t.failList.map failLine).flatten)

/-- The failure outcomes the report loop actually collects: `Failed`
outcomes whose message is not `"404"`. -/
def nonNfFails (os : List (List Char × DlOutcome)) : List (List Char × List Char) :=
  os.filterMap
    (fun x =>
      match x.2 with
      | DlOutcome.failedR m => if m = py404Msg then none else some (x.1, m)
      | _ => none)

/-- Whether an outcome is a `Failed` outcome (Python status `False`). -/
def isFailO : DlOutcome → Bool
  | DlOutcome.failedR _ => true
  | _ => false

/-! ## Server (`_resolve_path`, `_serve_file`) -/

/-- Server environment: resolved `SITE_DIR` segments and the predicate
telling which canonical absolute paths are regular files. -/
structure SrvEnv where
  root : List (List Char)
  isFile : List (List Char) → Bool

/-- Result of trying one candidate in `_resolve_path`'s loop. -/
inductive RStep
  | giveUp
  | reject
  | found (t : List (List Char))
deriving DecidableEq

/-- The traversal guard at the end of a `_resolve_path` iteration. -/
def checkGuard (env : SrvEnv) (target : List (List Char)) (evs : List Ev) : RStep × List Ev :=
  if isUnder env.root target then (RStep.found target, evs) else (RStep.reject, evs)

/-- One iteration of `_resolve_path`'s candidate loop. -/
def tryCandidate (env : SrvEnv) (candidate : List Char) : RStep × List Ev :=
  let stripped := candidate.dropWhile (fun c => c = '/')
  if stripped = [] then
    let idx := env.root ++ ["index".data, "index.html".data]
    if env.isFile idx then (RStep.found idx, [Ev.statPath idx])
    else (RStep.giveUp, [Ev.statPath idx])
  else
    let fp := normJoin env.root (segsOf stripped)
    if env.isFile fp then checkGuard env fp [Ev.statPath fp]
    else
      let fpIdx := fp ++ ["index.html".data]
      if env.isFile fpIdx then checkGuard env fpIdx [Ev.statPath fp, Ev.statPath fpIdx]
      else (RStep.giveUp, [Ev.statPath fp, Ev.statPath fpIdx])

/-- `_resolve_path`: strip query and fragment, then try the decoded and
the raw candidate in order; a guard rejection returns `None` outright. -/
def resolvePath (env : SrvEnv) (reqPath : List Char) : Option (List (List Char)) × List Ev :=
  let raw := (reqPath.takeWhile (fun c => c ≠ '?')).takeWhile (fun c => c ≠ '#')
  let decoded := unquoteL raw
  match tryCandidate env decoded with
  | (RStep.found t, e1) => (some t, e1)
  | (RStep.reject, e1) => (none, e1)
  | (RStep.giveUp, e1) =>
    match tryCandidate env raw with
    | (RStep.found t, e2) => (some t, e1 ++ e2)
    | (_, e2) => (none, e1 ++ e2)

/-- `_COMPRESSIBLE`. -/
def compressibleExts : List (List Char) :=
  [".js".data, ".css".data, ".html".data, ".json".data, ".svg".data, ".txt".data, ".xml".data]

/-- `_STATIC_BIN`. -/
def staticBinExts : List (List Char) :=
  [".png".data, ".jpg".data, ".jpeg".data, ".gif".data, ".webp".data,
   ".woff".data, ".woff2".data, ".wav".data]

/-- `_cache_control`. -/
def cacheControl (ext : List Char) : List Char :=
  if ext ∈ staticBinExts ∨ ext = ".woff".data ∨ ext = ".woff2".data then
    "public, max-age=604800".data
  else if ext = ".js".data ∨ ext = ".css".data then "public, max-age=86400".data
  else if ext = ".html".data then "public, max-age=3600".data
  else "public, max-age=3600".data

def lookupPairs : List (List Char × List Char) → List Char → Option (List Char)
  | [], _ => none
  | (k, v) :: rest, key => if k = key then some v else lookupPairs rest key

/-- `_MIME_MAP`. -/
def mimeMap : List (List Char × List Char) :=
  [(".js".data, "application/javascript; charset=utf-8".data),
   (".css".data, "text/css; charset=utf-8".data),
   (".json".data, "application/json; charset=utf-8".data),
   (".html".data, "text/html; charset=utf-8".data),
   (".png".data, "image/png".data), (".jpg".data, "image/jpeg".data),
   (".jpeg".data, "image/jpeg".data),
   (".gif".data, "image/gif".data), (".svg".data, "image/svg+xml; charset=utf-8".data),
   (".webp".data, "image/webp".data), (".wav".data, "audio/wav".data),
   (".woff2".data, "font/woff2".data), (".woff".data, "font/woff".data),
   (".xml".data, "application/xml; charset=utf-8".data),
   (".txt".data, "text/plain; charset=utf-8".data),
   (".ico".data, "image/x-icon".data)]

/-- `_MIME_MAP.get(ext, "application/octet-stream")`. -/
def mimeOf (ext : List Char) : List Char :=
  (lookupPairs mimeMap ext).getD "application/octet-stream".data

/-- `Path.suffix` of a file name (CPython: last dot, excluded when leading
or trailing). -/
def suffixOf (name : List Char) : List Char :=
  match name.reverse.findIdx? (fun c => c = '.') with
  | none => []
  | some j =>
    let i := name.length - 1 - j
    if 0 < i ∧ i < name.length - 1 then name.drop i else []

/-- `fp.suffix.lower()`. -/
def extOf (name : List Char) : List Char := (suffixOf name).map Char.toLower

/-- The metadata and content of the resolved local file (`st_size` is the
length of the content the raw read would return). -/
structure FileInfo where
  mtimeNs : Nat
  content : List Nat
deriving DecidableEq

/-- The request headers `_serve_file` consults. -/
structure Request where
  ifNoneMatch : Option (List Char)
  acceptEncoding : List Char
deriving DecidableEq

/-- An HTTP response: status, header lines in emission order, body. -/
structure Response where
  status : Nat
  headers : List (List Char × List Char)
  body : Option (List Nat)
deriving DecidableEq

def hVary : List Char × List Char := ("Vary".data, "Accept-Encoding".data)

def hACAO : List Char × List Char := ("Access-Control-Allow-Origin".data, "*".data)

/-- The gzip eligibility test of `_serve_file`. -/
def gzipEligible (ext : List Char) (size : Nat) (acceptEncoding : List Char) : Bool :=
  decide (ext ∈ compressibleExts) && decide (256 < size)
    && containsSeq "gzip".data acceptEncoding

/-- `_serve_file(fp, head_only)`, given the resolved file's name, stats and
content.  `gz` abstracts `_gzip_cached`'s compression (a pure function of
the file bytes), `dtStr` abstracts `date_time_string`.  The stat and read
are total here: the resolved file is assumed readable (the 404/500 error
paths of the handler are not modelled, no claim concerns them). -/
def serveFile (gz : List Nat → List Nat) (dtStr : Nat → List Char) (name : List Char)
    (fi : FileInfo) (req : Request) (headOnly : Bool) : Response :=
  let etag := mkEtag fi.mtimeNs fi.content.length
  let ext := extOf name
  if inmMatches req.ifNoneMatch etag then
    { status := 304
      headers :=
        [("ETag".data, etag), ("Cache-Control".data, cacheControl ext)]
          ++ (if ext ∈ compressibleExts then [hVary] else []) ++ [hACAO]
      body := none }
  else
    let useGzip := gzipEligible ext fi.content.length req.acceptEncoding
    let body := if useGzip then gz fi.content else fi.content
    let lastMod := dtStr (fi.mtimeNs / 1000000000)
    if headOnly then
      { status := 200
        headers :=
          [("Content-Type".data, mimeOf ext)]
            ++ (if useGzip then
                  [("Content-Length".data, decRep body.length),
                   ("Content-Encoding".data, "gzip".data), hVary]
                else [("Content-Length".data, decRep fi.content.length)])
            ++ [("ETag".data, etag), ("Cache-Control".data, cacheControl ext),
                ("Last-Modified".data, lastMod), hACAO]
        body := none }
    else
      { status := 200
        headers :=
          [("Content-Type".data, mimeOf ext), ("Content-Length".data, decRep body.length),
           ("ETag".data, etag), ("Cache-Control".data, cacheControl ext),
           ("Last-Modified".data, lastMod)]
            ++ (if useGzip then [("Content-Encoding".data, "gzip".data), hVary] else [])
            ++ [hACAO]
        body := some body }

/-- The event trace of a run of `k` attempts that all fail retriably,
starting at attempt index `a`. -/
def excT (url : List Char) : Nat → Nat → List Ev
  | _, 0 => []
  | a, k + 1 =>
    if k = 0 then [Ev.netReq url, Ev.unlinkTmp]
    else Ev.netReq url :: Ev.unlinkTmp :: Ev.sleepEv (2 ^ a) :: excT url (a + 1) k

/-! ## Concrete example values used by witnesses and counterexamples -/

def exRoot : List (List Char) := [['s']]

def exEnvExc : DlEnv := ⟨exRoot, fun _ => none, fun _ => NetResult.exc "boom".data⟩

def exEnvHttp : DlEnv := ⟨exRoot, fun _ => none, fun _ => NetResult.httpErr 500 "boom".data⟩

def exEnv404 : DlEnv := ⟨exRoot, fun _ => none, fun _ => NetResult.httpErr 404 "nf".data⟩

def exEnvEmpty : DlEnv := ⟨exRoot, fun _ => none, fun _ => NetResult.ok []⟩

def exEnvPresent : DlEnv :=
  ⟨exRoot, fun p => if p = [['s'], ['a']] then some 5 else none, fun _ => NetResult.exc "e".data⟩

def exEnvOutside : DlEnv := ⟨exRoot, fun _ => some 5, fun _ => NetResult.exc "e".data⟩

def exSrvX : SrvEnv := ⟨exRoot, fun p => decide (p = [['x']])⟩

def exSrvA : SrvEnv := ⟨exRoot, fun p => decide (p = [['s'], ['a']])⟩

def exDs : Nat → List Char := fun _ => "boom".data

def exGz : List Nat → List Nat := fun l => l.take 7

def exDt : Nat → List Char := fun _ => "DATE".data

def exFi : FileInfo := ⟨5, List.replicate 300 1⟩

def exName : List Char := "a.js".data

def exReqGz : Request := ⟨none, "gzip".data⟩

def exReqId : Request := ⟨some (mkEtag 5 300), "gzip".data⟩

def exOs : List (List Char × DlOutcome) :=
  [("p".data, DlOutcome.failedR "boom".data), ("q".data, DlOutcome.failedR py404Msg)]

def exOs404 : List (List Char × DlOutcome) := [("p".data, DlOutcome.failedR py404Msg)]

/-! ## Helper lemmas -/

theorem dropLen_append (a b : List Char) : (a ++ b).drop a.length = b := by
  induction a with
  | nil => simp
  | cons x xs ih => simp [ih]

theorem takeLen_append (a : List Char) (c : Char) (b : List Char) :
    (a ++ c :: b).take (a.length + 1) = a ++ [c] := by
  induction a with
  | nil => simp
  | cons x xs ih => simpa using ih

theorem isUnder_append (l m : List (List Char)) : isUnder l (l ++ m) = true := by
  induction l with
  | nil => simp [isUnder]
  | cons x xs ih => simpa [isUnder] using ih

theorem baseDigits_congr (b : Nat) (hb : 2 ≤ b) :
    ∀ f g n, n < f → n < g → baseDigits b f n = baseDigits b g n := by
  intro f
  induction f with
  | zero => intro g n h; omega
  | succ f ih =>
    intro g n hf hg
    match g, hg with
    | g + 1, hg =>
      by_cases hn : n < b
      · simp [baseDigits, hn]
      · have hpos : 0 < n := by omega
        have hdiv : n / b < n := Nat.div_lt_self hpos (by omega)
        simp only [baseDigits, if_neg hn]
        rw [ih g (n / b) (by omega) (by omega)]

theorem hexRep_lt {n : Nat} (h : n < 16) : hexRep n = [hexChar n] := by
  simp [hexRep, baseDigits, h]

theorem hexRep_ge {n : Nat} (h : ¬ n < 16) : hexRep n = hexRep (n / 16) ++ [hexChar (n % 16)] := by
  have hdiv : n / 16 < n := Nat.div_lt_self (by omega) (by omega)
  show baseDigits 16 (n + 1) n = _
  rw [baseDigits, if_neg h,
    baseDigits_congr 16 (by omega) n (n / 16 + 1) (n / 16) (by omega) (by omega)]
  rfl

theorem hexRep_ne_nil (n : Nat) : hexRep n ≠ [] := by
  by_cases h : n < 16
  · simp [hexRep_lt h]
  · simp [hexRep_ge h]

theorem hexChar_inj {m n : Nat} (hm : m < 16) (hn : n < 16) (h : hexChar m = hexChar n) :
    m = n := by
  have key : ∀ a : Fin 16, ∀ c : Fin 16, hexChar a.val = hexChar c.val → a = c := by decide
  have := key ⟨m, hm⟩ ⟨n, hn⟩ h
  exact congrArg Fin.val this

theorem hexRep_mem (n : Nat) : ∀ c ∈ hexRep n, ∃ k, k < 16 ∧ c = hexChar k := by
  induction n using Nat.strong_induction_on with
  | _ n ih =>
    by_cases h : n < 16
    · rw [hexRep_lt h]
      intro c hc
      simp only [List.mem_singleton] at hc
      exact ⟨n, h, hc⟩
    · rw [hexRep_ge h]
      intro c hc
      rcases List.mem_append.mp hc with hc | hc
      · exact ih (n / 16) (Nat.div_lt_self (by omega) (by omega)) c hc
      · simp only [List.mem_singleton] at hc
        exact ⟨n % 16, Nat.mod_lt _ (by omega), hc⟩

theorem hexChar_not_special : ∀ k : Fin 16,
    hexChar k.val ≠ '-' ∧ hexChar k.val ≠ ',' ∧ hexChar k.val ≠ '"' ∧
      isPySpace (hexChar k.val) = false := by decide

theorem hexRep_no_dash (n : Nat) : '-' ∉ hexRep n := by
  intro h
  obtain ⟨k, hk, he⟩ := hexRep_mem n '-' h
  exact (hexChar_not_special ⟨k, hk⟩).1 he.symm

theorem hexRep_no_comma (n : Nat) : ',' ∉ hexRep n := by
  intro h
  obtain ⟨k, hk, he⟩ := hexRep_mem n ',' h
  exact (hexChar_not_special ⟨k, hk⟩).2.1 he.symm

theorem hexRep_inj : ∀ m n, hexRep m = hexRep n → m = n := by
  intro m
  induction m using Nat.strong_induction_on with
  | _ m ih =>
    intro n h
    by_cases hm : m < 16 <;> by_cases hn : n < 16
    · rw [hexRep_lt hm, hexRep_lt hn] at h
      exact hexChar_inj hm hn (List.singleton_injective h)
    · rw [hexRep_lt hm, hexRep_ge hn] at h
      have hl := congrArg List.length h
      simp only [List.length_singleton, List.length_append] at hl
      have : (hexRep (n / 16)).length = 0 := by omega
      exact absurd (List.length_eq_zero.mp this) (hexRep_ne_nil (n / 16))
    · rw [hexRep_ge hm, hexRep_lt hn] at h
      have hl := congrArg List.length h
      simp only [List.length_singleton, List.length_append] at hl
      have : (hexRep (m / 16)).length = 0 := by omega
      exact absurd (List.length_eq_zero.mp this) (hexRep_ne_nil (m / 16))
    · rw [hexRep_ge hm, hexRep_ge hn] at h
      have hrev := congrArg List.reverse h
      simp only [List.reverse_append, List.reverse_singleton, List.singleton_append,
        List.cons.injEq] at hrev
      have h1 : m % 16 = n % 16 :=
        hexChar_inj (Nat.mod_lt _ (by omega)) (Nat.mod_lt _ (by omega)) hrev.1
      have h2 : hexRep (m / 16) = hexRep (n / 16) :=
        List.reverse_injective hrev.2
      have h3 : m / 16 = n / 16 := ih (m / 16) (Nat.div_lt_self (by omega) (by omega)) _ h2
      omega

theorem split_at_dash : ∀ (a c b d : List Char), '-' ∉ a → '-' ∉ c →
    a ++ '-' :: b = c ++ '-' :: d → a = c ∧ b = d := by
  intro a
  induction a with
  | nil =>
    intro c b d _ hc h
    cases c with
    | nil => simpa using h
    | cons y ys =>
      simp only [List.nil_append, List.cons_append, List.cons.injEq] at h
      exact absurd (List.mem_cons.mpr (Or.inl h.1)) hc
  | cons x xs ih =>
    intro c b d ha hc h
    cases c with
    | nil =>
      simp only [List.nil_append, List.cons_append, List.cons.injEq] at h
      exact absurd (List.mem_cons.mpr (Or.inl h.1.symm)) ha
    | cons y ys =>
      simp only [List.cons_append, List.cons.injEq] at h
      obtain ⟨hxy, hrest⟩ := h
      have := ih ys b d (fun hm => ha (List.mem_cons_of_mem x hm))
        (fun hm => hc (List.mem_cons_of_mem y hm)) hrest
      exact ⟨by rw [hxy, this.1], this.2⟩

theorem mkEtag_inj {m1 s1 m2 s2 : Nat} (h : mkEtag m1 s1 = mkEtag m2 s2) :
    m1 = m2 ∧ s1 = s2 := by
  simp only [mkEtag, List.cons.injEq, true_and] at h
  obtain ⟨hA, hB⟩ := split_at_dash _ _ _ _ (hexRep_no_dash m1) (hexRep_no_dash m2) h
  have hBr := congrArg List.reverse hB
  simp only [List.reverse_append, List.reverse_singleton, List.singleton_append,
    List.cons.injEq, true_and] at hBr
  exact ⟨hexRep_inj _ _ hA, hexRep_inj _ _ (List.reverse_injective hBr)⟩

theorem mkEtag_no_comma (m s : Nat) : ',' ∉ mkEtag m s := by
  intro h
  rw [mkEtag] at h
  rcases List.mem_cons.mp h with h | h
  · exact absurd h (by decide)
  rcases List.mem_append.mp h with h | h
  · exact hexRep_no_comma m h
  rcases List.mem_cons.mp h with h | h
  · exact absurd h (by decide)
  rcases List.mem_append.mp h with h | h
  · exact hexRep_no_comma s h
  · exact absurd (List.mem_singleton.mp h) (by decide)

theorem splitSep_of_not_mem {sep : Char} {s : List Char} (h : sep ∉ s) :
    splitSep sep s = [s] := by
  induction s with
  | nil => rfl
  | cons c rest ih =>
    have hc : c ≠ sep := fun he => h (he ▸ List.mem_cons_self c rest)
    have hr : sep ∉ rest := fun hm => h (List.mem_cons_of_mem c hm)
    simp only [splitSep, List.foldr_cons, if_neg hc]
    rw [show rest.foldr _ [[]] = splitSep sep rest from rfl, ih hr]

theorem trimPy_sandwich {a b : Char} (xs : List Char)
    (ha : isPySpace a = false) (hb : isPySpace b = false) :
    trimPy (a :: (xs ++ [b])) = a :: (xs ++ [b]) := by
  unfold trimPy
  rw [List.dropWhile_cons_of_neg (by simp [ha])]
  have hrev : (a :: (xs ++ [b])).reverse = b :: (xs.reverse ++ [a]) := by
    simp
  rw [hrev, List.dropWhile_cons_of_neg (by simp [hb]), ← hrev, List.reverse_reverse]

theorem mkEtag_shape (m s : Nat) :
    mkEtag m s = '"' :: ((hexRep m ++ '-' :: hexRep s) ++ ['"']) := by
  simp [mkEtag]

theorem trimPy_etag (m s : Nat) : trimPy (mkEtag m s) = mkEtag m s := by
  rw [mkEtag_shape]
  exact trimPy_sandwich _ (by decide) (by decide)

theorem inm_self (m s : Nat) : inmMatches (some (mkEtag m s)) (mkEtag m s) = true := by
  simp only [inmMatches]
  rw [splitSep_of_not_mem (mkEtag_no_comma m s)]
  have h1 : mkEtag m s ≠ [] := by rw [mkEtag]; exact List.cons_ne_nil _ _
  simp [trimPy_etag, h1]

theorem inm_single_ne {e1 e2 : List Char} (hc : ',' ∉ e1) (ht : trimPy e1 = e1)
    (hne : e1 ≠ e2) : inmMatches (some e1) e2 = false := by
  simp only [inmMatches]
  rw [splitSep_of_not_mem hc]
  simp [ht, hne]

/-! ## Retry-loop lemmas -/

theorem excT_sleeps (url : List Char) :
    ∀ k a, sleepsOf (excT url a (k + 1)) = (List.range k).map (fun i => 2 ^ (a + i)) := by
  intro k
  induction k with
  | zero => intro a; simp [excT, sleepsOf]
  | succ k ih =>
    intro a
    rw [show excT url a (k + 1 + 1) =
        Ev.netReq url :: Ev.unlinkTmp :: Ev.sleepEv (2 ^ a) :: excT url (a + 1) (k + 1) from by
      simp [excT]]
    rw [show ∀ tr, sleepsOf (Ev.netReq url :: Ev.unlinkTmp :: Ev.sleepEv (2 ^ a) :: tr) =
        2 ^ a :: sleepsOf tr from fun tr => by simp [sleepsOf]]
    rw [ih, List.range_succ_eq_map]
    simp only [List.map_cons, Nat.add_zero, List.map_map]
    congr 1
    refine List.map_congr_left ?_
    intro i _
    simp only [Function.comp_apply]
    congr 1
    omega

theorem excT_netCount (url : List Char) :
    ∀ k a, netCount (excT url a (k + 1)) = k + 1 := by
  intro k
  induction k with
  | zero => intro a; simp [excT, netCount]
  | succ k ih =>
    intro a
    rw [show excT url a (k + 1 + 1) =
        Ev.netReq url :: Ev.unlinkTmp :: Ev.sleepEv (2 ^ a) :: excT url (a + 1) (k + 1) from by
      simp [excT]]
    have h := ih (a + 1)
    simp only [netCount, List.countP_cons] at h ⊢
    simp [h]

theorem excT_unlinkCount (url : List Char) :
    ∀ k a, unlinkCount (excT url a (k + 1)) = k + 1 := by
  intro k
  induction k with
  | zero => intro a; simp [excT, unlinkCount]
  | succ k ih =>
    intro a
    rw [show excT url a (k + 1 + 1) =
        Ev.netReq url :: Ev.unlinkTmp :: Ev.sleepEv (2 ^ a) :: excT url (a + 1) (k + 1) from by
      simp [excT]]
    have h := ih (a + 1)
    simp only [unlinkCount, List.countP_cons] at h ⊢
    simp [h]

theorem dlLoop_exc (net : Nat → NetResult) (retries : Nat) (url : List Char) (ds : Nat → List Char)
    (H : ∀ a, a < retries → net a = NetResult.exc (ds a)) :
    ∀ k, 0 < k → k ≤ retries →
      dlLoop net retries url k =
        (DlOutcome.failedR (ds (retries - 1)), excT url (retries - k) k) := by
  intro k
  induction k with
  | zero => intro h; omega
  | succ k ih =>
    intro _ hk
    have ha : retries - (k + 1) < retries := by omega
    simp only [dlLoop, H _ ha]
    cases Nat.eq_zero_or_pos k with
    | inl h0 =>
      subst h0
      have h1 : retries - 1 = retries - (0 + 1) := by omega
      simp [excT, h1]
    | inr hpos =>
      rw [if_pos hpos, ih hpos (by omega)]
      have h2 : ¬ k = 0 := by omega
      have h3 : retries - (k + 1) + 1 = retries - k := by omega
      simp [excT, h2, h3]

theorem dlLoop_http (net : Nat → NetResult) (retries : Nat) (url : List Char)
    (H : ∀ a, a < retries → ∃ c d, c ≠ 404 ∧ net a = NetResult.httpErr c d) :
    ∀ k, 0 < k → k ≤ retries →
      dlLoop net retries url k =
        (DlOutcome.failedR pyFailedMsg, excT url (retries - k) k) := by
  intro k
  induction k with
  | zero => intro h; omega
  | succ k ih =>
    intro _ hk
    have ha : retries - (k + 1) < retries := by omega
    obtain ⟨c, d, hc, hnet⟩ := H _ ha
    simp only [dlLoop, hnet, if_neg hc]
    cases Nat.eq_zero_or_pos k with
    | inl h0 =>
      subst h0
      simp [excT]
    | inr hpos =>
      rw [if_pos hpos, ih hpos (by omega)]
      have h2 : ¬ k = 0 := by omega
      have h3 : retries - (k + 1) + 1 = retries - k := by omega
      simp [excT, h2, h3]

/-! ## Resolver and aggregation lemmas -/

theorem checkGuard_found {env : SrvEnv} {target t : List (List Char)} {evs tr : List Ev}
    (h : checkGuard env target evs = (RStep.found t, tr)) : isUnder env.root t = true := by
  unfold checkGuard at h
  split at h
  · simp only [Prod.mk.injEq, RStep.found.injEq] at h
    rw [← h.1]
    assumption
  · simp at h

theorem tryCandidate_found {env : SrvEnv} {c : List Char} {t : List (List Char)} {evs : List Ev}
    (h : tryCandidate env c = (RStep.found t, evs)) : isUnder env.root t = true := by
  simp only [tryCandidate] at h
  split at h
  · split at h
    · simp only [Prod.mk.injEq, RStep.found.injEq] at h
      rw [← h.1]
      exact isUnder_append _ _
    · simp at h
  · split at h
    · exact checkGuard_found h
    · split at h
      · exact checkGuard_found h
      · simp at h

theorem resolvePath_found {env : SrvEnv} {rp : List Char} {t : List (List Char)} {evs : List Ev}
    (h : resolvePath env rp = (some t, evs)) : isUnder env.root t = true := by
  simp only [resolvePath] at h
  split at h
  case _ heq =>
    simp only [Prod.mk.injEq, Option.some.injEq] at h
    exact h.1 ▸ tryCandidate_found heq
  case _ => simp at h
  case _ =>
    split at h
    case _ heq =>
      simp only [Prod.mk.injEq, Option.some.injEq] at h
      exact h.1 ▸ tryCandidate_found heq
    case _ => simp at h

theorem foldl_stepTally_failList (os : List (List Char × DlOutcome)) :
    ∀ t : Tally, (os.foldl stepTally t).failList = t.failList ++ nonNfFails os := by
  induction os with
  | nil => intro t; simp [nonNfFails]
  | cons x rest ih =>
    intro t
    obtain ⟨p, o⟩ := x
    rw [List.foldl_cons, ih]
    cases o with
    | fetched n => simp [stepTally, nonNfFails, List.filterMap_cons]
    | present => simp [stepTally, nonNfFails, List.filterMap_cons]
    | failedR m =>
      by_cases hm : m = py404Msg
      · simp [stepTally, nonNfFails, List.filterMap_cons, hm]
      · simp [stepTally, nonNfFails, List.filterMap_cons, hm]

theorem runTally_failList (os : List (List Char × DlOutcome)) :
    (runTally os).failList = nonNfFails os := by
  rw [runTally, foldl_stepTally_failList]
  rfl

/-! ## `download_one` unfolding helpers -/

theorem downloadOne_escape (env : DlEnv) (p : List Char) (retries : Nat)
    (h : isUnder env.root (targetOf env.root p) = false) :
    downloadOne env p retries = (DlOutcome.failedR pyTraversal, []) := by
  simp [downloadOne, h]

theorem downloadOne_present (env : DlEnv) (p : List Char) (retries sz : Nat)
    (h1 : isUnder env.root (targetOf env.root p) = true)
    (h2 : env.fs (targetOf env.root p) = some sz) (h3 : 0 < sz) :
    downloadOne env p retries = (DlOutcome.present, [Ev.statTarget]) := by
  simp [downloadOne, h1, h2, h3]

theorem downloadOne_fetch (env : DlEnv) (p : List Char) (retries : Nat)
    (h1 : isUnder env.root (targetOf env.root p) = true)
    (h2 : env.fs (targetOf env.root p) = none) :
    downloadOne env p retries = dlFetch env.net p retries := by
  simp [downloadOne, h1, h2]

/-- Moving the compression headers block across the tail headers is a
permutation (the shape of the HEAD versus GET divergence). -/
theorem perm_gzip_headers {α : Type} (ct cl ce vy et cc lm ao : α) :
    ([ct, cl, ce, vy, et, cc, lm, ao] : List α).Perm [ct, cl, et, cc, lm, ce, vy, ao] := by
  refine List.Perm.cons _ (List.Perm.cons _ ?_)
  show ([ce, vy] ++ ([et, cc, lm] ++ [ao])).Perm ([et, cc, lm] ++ ([ce, vy] ++ [ao]))
  exact List.perm_append_comm_assoc _ _ _

/-! ## Claim theorems -/

/-- C1 (amended): a manifest entry whose resolved path escapes the mirror
root makes `download_one` return the traversal-blocked failure with an
empty access trace (no filesystem or network I/O, and no exception: the
function totally returns the failure value); and `_resolve_path` never
returns a target outside the root, a guard rejection surfacing as
not-found.  (The original claim's stronger statement that the resolver
also performs no filesystem I/O before rejecting is refuted by
`c1_counterexample`: the resolver stats the candidate before the guard.) -/
theorem c1_traversal_rejected :
    (∀ (env : DlEnv) (p : List Char) (retries : Nat),
      isUnder env.root (targetOf env.root p) = false →
      downloadOne env p retries = (DlOutcome.failedR pyTraversal, []))
    ∧ (∀ (env : SrvEnv) (rp : List Char) (t : List (List Char)) (evs : List Ev),
      resolvePath env rp = (some t, evs) → isUnder env.root t = true) :=
  ⟨downloadOne_escape, fun _ _ _ _ h => resolvePath_found h⟩

/-- C1 witness: a `../` entry is rejected by the fetch engine with an
empty trace, and a resolved request's target lies under the root. -/
theorem c1_witness :
    downloadOne exEnvOutside "../x".data 3 = (DlOutcome.failedR pyTraversal, [])
    ∧ isUnder exRoot [['s'], ['a']] = true :=
  ⟨c1_traversal_rejected.1 exEnvOutside "../x".data 3 (by decide),
   c1_traversal_rejected.2 exSrvA "/a".data [['s'], ['a']] [Ev.statPath [['s'], ['a']]]
     (by decide)⟩

/-- C1 counterexample: on request `/../x` with a file at `/x` outside the
root, `_resolve_path` answers not-found but only after performing a
filesystem stat on the escaping path, contradicting the claim that the
rejection happens before any filesystem I/O. -/
theorem c1_counterexample :
    resolvePath exSrvX "/../x".data = (none, [Ev.statPath [['x']]])
    ∧ isUnder exRoot [['x']] = false := by decide

/-- C3 (amended): for an entry whose resolved path stays under the root
and whose local file exists with non-zero size, `download_one` answers
already-present after a single stat and no network request; hence a run of
`cmd_download` over entries that all pass `_file_ok` submits nothing and
performs zero network requests.  (The original claim quantified over every
entry with an existing non-empty file; `c3_counterexample` shows an
escaping entry whose file exists non-empty yet is answered with the
traversal failure instead.) -/
theorem c3_idempotent (env : DlEnv) (p : List Char) (retries sz : Nat)
    (h1 : isUnder env.root (targetOf env.root p) = true)
    (h2 : env.fs (targetOf env.root p) = some sz) (h3 : 0 < sz) :
    downloadOne env p retries = (DlOutcome.present, [Ev.statTarget])
    ∧ netCount (downloadOne env p retries).2 = 0
    ∧ (∀ entries, (∀ q ∈ entries, fileOk env.root env.fs q = true) →
        pendingOf env.root env.fs entries = [] ∧ runNetCount env entries retries = 0) := by
  have hm := downloadOne_present env p retries sz h1 h2 h3
  refine ⟨hm, by rw [hm]; rfl, ?_⟩
  intro entries hall
  have hp : pendingOf env.root env.fs entries = [] := by
    refine List.filter_eq_nil_iff.mpr ?_
    intro q hq
    simp [hall q hq]
  exact ⟨hp, by simp [runNetCount, hp]⟩

/-- C3 witness: with the file already present, `download_one` performs the
stat only. -/
theorem c3_witness :
    downloadOne exEnvPresent ['a'] 3 = (DlOutcome.present, [Ev.statTarget]) :=
  (c3_idempotent exEnvPresent ['a'] 3 5 (by decide) (by decide) (by decide)).1

/-- C3 counterexample: the entry `../x` resolves outside the root; its
file exists there with size 5, yet `download_one` answers the traversal
failure, not already-present (no network request is made either way). -/
theorem c3_counterexample :
    exEnvOutside.fs (targetOf exEnvOutside.root "../x".data) = some 5
    ∧ (downloadOne exEnvOutside "../x".data 3).1 ≠ DlOutcome.present
    ∧ netCount (downloadOne exEnvOutside "../x".data 3).2 = 0 := by decide

/-- C8: a download whose body completes empty yields the empty-body
failure immediately: one network request, the temp file written then
unlinked, no retry, and the target file never created or replaced. -/
theorem c8_empty_body (env : DlEnv) (p : List Char) (retries : Nat)
    (hr : 0 < retries)
    (h1 : isUnder env.root (targetOf env.root p) = true)
    (h2 : env.fs (targetOf env.root p) = none)
    (h3 : env.net 0 = NetResult.ok []) :
    downloadOne env p retries =
      (DlOutcome.failedR pyEmptyMsg,
       [Ev.statTarget, Ev.mkdirParents, Ev.netReq (fullUrlOf p), Ev.writeTmp 0, Ev.unlinkTmp])
    ∧ Ev.replaceToTarget ∉ (downloadOne env p retries).2
    ∧ netCount (downloadOne env p retries).2 = 1 := by
  obtain ⟨k, rfl⟩ : ∃ k, retries = k + 1 := ⟨retries - 1, by omega⟩
  have hm : downloadOne env p (k + 1) =
      (DlOutcome.failedR pyEmptyMsg,
       [Ev.statTarget, Ev.mkdirParents, Ev.netReq (fullUrlOf p), Ev.writeTmp 0,
        Ev.unlinkTmp]) := by
    rw [downloadOne_fetch env p (k + 1) h1 h2]
    simp [dlFetch, dlLoop, Nat.sub_self, h3]
  refine ⟨hm, ?_, ?_⟩
  · rw [hm]
    simp
  · rw [hm]
    rfl

/-- C8 witness: the empty-body behaviour at a concrete environment. -/
theorem c8_witness :
    downloadOne exEnvEmpty ['a'] 2 =
      (DlOutcome.failedR pyEmptyMsg,
       [Ev.statTarget, Ev.mkdirParents, Ev.netReq (fullUrlOf ['a']), Ev.writeTmp 0,
        Ev.unlinkTmp]) :=
  (c8_empty_body exEnvEmpty ['a'] 2 (by decide) (by decide) (by decide) rfl).1

/-- C10: `_file_ok` is a total Boolean function answering `False` on every
entry whose resolved path escapes the root; such an entry is therefore in
`cmd_status`'s missing count, is resubmitted by `cmd_download`, and any
run of `download_one` on it yields the traversal failure with no I/O,
never the already-present outcome. -/
theorem c10_file_ok_guard (root : List (List Char)) (fs : List (List Char) → Option Nat)
    (p : List Char) (entries : List (List Char))
    (hesc : isUnder root (targetOf root p) = false) (hmem : p ∈ entries) :
    fileOk root fs p = false
    ∧ p ∈ pendingOf root fs entries
    ∧ 0 < missingCount root fs entries
    ∧ (∀ env : DlEnv, env.root = root → ∀ retries,
        downloadOne env p retries = (DlOutcome.failedR pyTraversal, [])
        ∧ (downloadOne env p retries).1 ≠ DlOutcome.present) := by
  have h1 : fileOk root fs p = false := by simp [fileOk, hesc]
  refine ⟨h1, List.mem_filter.mpr ⟨hmem, by simp [h1]⟩, ?_, ?_⟩
  · exact List.countP_pos_iff.mpr ⟨p, hmem, by simp [h1]⟩
  · intro env he retries
    have hesc' : isUnder env.root (targetOf env.root p) = false := by rw [he]; exact hesc
    have hd := downloadOne_escape env p retries hesc'
    exact ⟨hd, by rw [hd]; simp⟩

/-- C10 witness: the guard behaviour of `_file_ok` on a concrete `../x`
entry present in the manifest. -/
theorem c10_witness :
    fileOk exRoot (fun _ => some 5) "../x".data = false
    ∧ "../x".data ∈ pendingOf exRoot (fun _ => some 5) ["../x".data] :=
  ⟨(c10_file_ok_guard exRoot (fun _ => some 5) "../x".data ["../x".data]
      (by decide) (by decide)).1,
   (c10_file_ok_guard exRoot (fun _ => some 5) "../x".data ["../x".data]
      (by decide) (by decide)).2.1⟩

/-- C2 (amended): on an HTTP 404 at the first attempt `download_one` fails
immediately with the not-found outcome — one request, no sleep, no retry;
when every attempt raises a non-HTTP transport error it makes exactly
`retries` requests with back-off sleeps `2^0, …, 2^(retries-2)` between
them, unlinks the temp file after each failed attempt, and the final
outcome carries the last error's description; when every attempt fails
with a non-404 HTTP error the retry/backoff schedule is the same but the
exhausted outcome carries the generic `"failed"` marker, not the last
error's description (the divergence `c2_counterexample` exhibits). -/
theorem c2_retry_backoff (env : DlEnv) (p : List Char) (retries : Nat) (ds : Nat → List Char)
    (hr : 0 < retries)
    (h1 : isUnder env.root (targetOf env.root p) = true)
    (h2 : env.fs (targetOf env.root p) = none) :
    (∀ d, env.net 0 = NetResult.httpErr 404 d →
      downloadOne env p retries =
        (DlOutcome.failedR py404Msg,
         [Ev.statTarget, Ev.mkdirParents, Ev.netReq (fullUrlOf p), Ev.unlinkTmp]))
    ∧ ((∀ a, a < retries → env.net a = NetResult.exc (ds a)) →
      (downloadOne env p retries).1 = DlOutcome.failedR (ds (retries - 1))
      ∧ sleepsOf (downloadOne env p retries).2 = (List.range (retries - 1)).map (fun i => 2 ^ i)
      ∧ netCount (downloadOne env p retries).2 = retries
      ∧ unlinkCount (downloadOne env p retries).2 = retries)
    ∧ ((∀ a, a < retries → ∃ c d, c ≠ 404 ∧ env.net a = NetResult.httpErr c d) →
      (downloadOne env p retries).1 = DlOutcome.failedR pyFailedMsg
      ∧ sleepsOf (downloadOne env p retries).2 = (List.range (retries - 1)).map (fun i => 2 ^ i)
      ∧ netCount (downloadOne env p retries).2 = retries
      ∧ unlinkCount (downloadOne env p retries).2 = retries) := by
  have hd := downloadOne_fetch env p retries h1 h2
  refine ⟨?_, ?_, ?_⟩
  · intro d h404
    obtain ⟨k, rfl⟩ : ∃ k, retries = k + 1 := ⟨retries - 1, by omega⟩
    rw [hd]
    simp [dlFetch, dlLoop, Nat.sub_self, h404]
  · intro H
    have hl := dlLoop_exc env.net retries (fullUrlOf p) ds H retries hr le_rfl
    rw [Nat.sub_self] at hl
    obtain ⟨k, rfl⟩ : ∃ k, retries = k + 1 := ⟨retries - 1, by omega⟩
    refine ⟨?_, ?_, ?_, ?_⟩
    · rw [hd]; simp [dlFetch, hl]
    · rw [hd]
      simp only [dlFetch, hl]
      rw [show ∀ tr, sleepsOf (Ev.statTarget :: Ev.mkdirParents :: tr) = sleepsOf tr from
        fun tr => by simp [sleepsOf]]
      rw [excT_sleeps]
      simp
    · rw [hd]
      simp only [dlFetch, hl]
      have h := excT_netCount (fullUrlOf p) k 0
      simp only [netCount, List.countP_cons] at h ⊢
      simp [h]
    · rw [hd]
      simp only [dlFetch, hl]
      have h := excT_unlinkCount (fullUrlOf p) k 0
      simp only [unlinkCount, List.countP_cons] at h ⊢
      simp [h]
  · intro H
    have hl := dlLoop_http env.net retries (fullUrlOf p) H retries hr le_rfl
    rw [Nat.sub_self] at hl
    obtain ⟨k, rfl⟩ : ∃ k, retries = k + 1 := ⟨retries - 1, by omega⟩
    refine ⟨?_, ?_, ?_, ?_⟩
    · rw [hd]; simp [dlFetch, hl]
    · rw [hd]
      simp only [dlFetch, hl]
      rw [show ∀ tr, sleepsOf (Ev.statTarget :: Ev.mkdirParents :: tr) = sleepsOf tr from
        fun tr => by simp [sleepsOf]]
      rw [excT_sleeps]
      simp
    · rw [hd]
      simp only [dlFetch, hl]
      have h := excT_netCount (fullUrlOf p) k 0
      simp only [netCount, List.countP_cons] at h ⊢
      simp [h]
    · rw [hd]
      simp only [dlFetch, hl]
      have h := excT_unlinkCount (fullUrlOf p) k 0
      simp only [unlinkCount, List.countP_cons] at h ⊢
      simp [h]

/-- C2 witness: with every attempt a transport error `boom` and 2 retries,
the outcome carries the last error's description. -/
theorem c2_witness :
    (downloadOne exEnvExc ['a'] 2).1 = DlOutcome.failedR (exDs (2 - 1)) :=
  ((c2_retry_backoff exEnvExc ['a'] 2 exDs (by decide) (by decide) rfl).2.1
    (fun _ _ => rfl)).1

/-- C2 counterexample: with every attempt an HTTP 500 whose description is
`boom`, the exhausted outcome carries the constant `"failed"`, not the
last error's description, contradicting the claim. -/
theorem c2_counterexample :
    (downloadOne exEnvHttp ['a'] 2).1 = DlOutcome.failedR pyFailedMsg
    ∧ pyFailedMsg ≠ "boom".data := by decide

/-- C4: for a request not satisfied by the conditional (`If-None-Match`)
check, the GET response is gzip-compressed if and only if the file's
extension is compressible, its size exceeds 256 bytes, and the
Accept-Encoding header contains `gzip`; when eligible the body is the
compressed bytes and the `Content-Encoding: gzip` and
`Vary: Accept-Encoding` headers are present, otherwise the body is the
raw file bytes and no `Content-Encoding` header is sent. -/
theorem c4_compression_iff (gz : List Nat → List Nat) (dtStr : Nat → List Char)
    (name : List Char) (fi : FileInfo) (req : Request)
    (hnm : inmMatches req.ifNoneMatch (mkEtag fi.mtimeNs fi.content.length) = false) :
    (gzipEligible (extOf name) fi.content.length req.acceptEncoding = true →
      (serveFile gz dtStr name fi req false).body = some (gz fi.content)
      ∧ ("Content-Encoding".data, "gzip".data) ∈ (serveFile gz dtStr name fi req false).headers
      ∧ hVary ∈ (serveFile gz dtStr name fi req false).headers)
    ∧ (gzipEligible (extOf name) fi.content.length req.acceptEncoding = false →
      (serveFile gz dtStr name fi req false).body = some fi.content
      ∧ ("Content-Encoding".data, "gzip".data)
          ∉ (serveFile gz dtStr name fi req false).headers) := by
  constructor
  · intro he
    simp [serveFile, hnm, he]
  · intro he
    have hne1 : ¬ (("Content-Encoding".data : List Char) = "Content-Type".data) := by decide
    have hne2 : ¬ (("Content-Encoding".data : List Char) = "Content-Length".data) := by decide
    have hne3 : ¬ (("Content-Encoding".data : List Char) = "ETag".data) := by decide
    have hne4 : ¬ (("Content-Encoding".data : List Char) = "Cache-Control".data) := by decide
    have hne5 : ¬ (("Content-Encoding".data : List Char) = "Last-Modified".data) := by decide
    have hne6 : ¬ (("Content-Encoding".data : List Char)
        = "Access-Control-Allow-Origin".data) := by decide
    simp [serveFile, hnm, he, hACAO, Prod.ext_iff, hne1, hne2, hne3, hne4, hne5, hne6]

/-- C4 witness: a 300-byte `.js` file with `Accept-Encoding: gzip` gets
the compressed body. -/
theorem c4_witness :
    (serveFile exGz exDt exName exFi exReqGz false).body = some (exGz exFi.content) :=
  ((c4_compression_iff exGz exDt exName exFi exReqGz (by decide)).1 (by decide)).1

/-- C5: the ETag is the fixed function `mkEtag` of mtime and size; a
request whose `If-None-Match` header lists the file's current ETag is
answered 304 with no body, carrying the ETag and Cache-Control headers;
distinct (mtime, size) pairs give distinct ETags, and a stale ETag defeats
the match (status 200). -/
theorem c5_etag_conditional (gz : List Nat → List Nat) (dtStr : Nat → List Char)
    (name : List Char) (fi : FileInfo) (req : Request) (headOnly : Bool) :
    (∀ s, req.ifNoneMatch = some s →
      mkEtag fi.mtimeNs fi.content.length ∈ (splitSep ',' s).map trimPy →
      (serveFile gz dtStr name fi req headOnly).status = 304
      ∧ (serveFile gz dtStr name fi req headOnly).body = none
      ∧ ("ETag".data, mkEtag fi.mtimeNs fi.content.length)
          ∈ (serveFile gz dtStr name fi req headOnly).headers
      ∧ ("Cache-Control".data, cacheControl (extOf name))
          ∈ (serveFile gz dtStr name fi req headOnly).headers)
    ∧ (∀ m1 s1 m2 s2 : Nat, m1 ≠ m2 ∨ s1 ≠ s2 → mkEtag m1 s1 ≠ mkEtag m2 s2)
    ∧ (∀ m1 s1, req.ifNoneMatch = some (mkEtag m1 s1) →
      (m1 ≠ fi.mtimeNs ∨ s1 ≠ fi.content.length) →
      (serveFile gz dtStr name fi req headOnly).status = 200) := by
  refine ⟨?_, ?_, ?_⟩
  · intro s hs hmem
    have hsne : s ≠ [] := by
      rintro rfl
      have : mkEtag fi.mtimeNs fi.content.length = [] := by
        simpa [splitSep, trimPy] using hmem
      exact absurd this (by rw [mkEtag]; exact List.cons_ne_nil _ _)
    have hin : inmMatches req.ifNoneMatch (mkEtag fi.mtimeNs fi.content.length) = true := by
      rw [hs]
      rcases List.mem_map.mp hmem with ⟨t, ht, htr⟩
      have h2 : (splitSep ',' s).any
          (fun u => decide (trimPy u = mkEtag fi.mtimeNs fi.content.length)) = true :=
        List.any_eq_true.mpr ⟨t, ht, by simp [htr]⟩
      simp [inmMatches, hsne, h2]
    simp [serveFile, hin]
  · intro m1 s1 m2 s2 hne heq
    rcases mkEtag_inj heq with ⟨hm, hs⟩
    rcases hne with h | h
    · exact h hm
    · exact h hs
  · intro m1 s1 hr hne
    have hineq : mkEtag m1 s1 ≠ mkEtag fi.mtimeNs fi.content.length := by
      intro he
      rcases mkEtag_inj he with ⟨hm, hs⟩
      rcases hne with h | h
      · exact h hm
      · exact h hs
    have hfalse : inmMatches req.ifNoneMatch (mkEtag fi.mtimeNs fi.content.length) = false := by
      rw [hr]
      exact inm_single_ne (mkEtag_no_comma _ _) (trimPy_etag _ _) hineq
    cases headOnly <;> simp [serveFile, hfalse]

/-- C5 witness: a request carrying the file's current ETag is answered 304. -/
theorem c5_witness :
    (serveFile exGz exDt exName exFi exReqId false).status = 304 :=
  ((c5_etag_conditional exGz exDt exName exFi exReqId false).1 (mkEtag 5 300) rfl
    (by decide)).1

/-- C6 (amended): for every resolved file and request-header combination a
HEAD response has the same status as GET, the same headers with the same
values up to emission order (they are a permutation, and are equal
whenever compression does not apply — in particular Content-Length
reflects whichever body variant GET would send), and HEAD never carries a
body.  (Byte-identical header blocks, as the original claim states, fail
in the compressed case: HEAD emits `Content-Encoding`/`Vary` directly
after `Content-Length` while GET emits them after `Last-Modified`;
`c6_counterexample` exhibits the differing orders.) -/
theorem c6_head_get (gz : List Nat → List Nat) (dtStr : Nat → List Char)
    (name : List Char) (fi : FileInfo) (req : Request) :
    (serveFile gz dtStr name fi req true).status = (serveFile gz dtStr name fi req false).status
    ∧ List.Perm (serveFile gz dtStr name fi req true).headers
        (serveFile gz dtStr name fi req false).headers
    ∧ (serveFile gz dtStr name fi req true).body = none := by
  cases hin : inmMatches req.ifNoneMatch (mkEtag fi.mtimeNs fi.content.length) with
  | true =>
    have hsame : serveFile gz dtStr name fi req true = serveFile gz dtStr name fi req false := by
      simp [serveFile, hin]
    exact ⟨by rw [hsame], by rw [hsame], by simp [serveFile, hin]⟩
  | false =>
    cases hu : gzipEligible (extOf name) fi.content.length req.acceptEncoding with
    | false =>
      have hh : (serveFile gz dtStr name fi req true).headers
          = (serveFile gz dtStr name fi req false).headers := by
        simp [serveFile, hin, hu]
      exact ⟨by simp [serveFile, hin, hu], by rw [hh], by simp [serveFile, hin, hu]⟩
    | true =>
      refine ⟨by simp [serveFile, hin, hu], ?_, by simp [serveFile, hin, hu]⟩
      have hH : (serveFile gz dtStr name fi req true).headers =
          [("Content-Type".data, mimeOf (extOf name)),
           ("Content-Length".data, decRep (gz fi.content).length),
           ("Content-Encoding".data, "gzip".data), hVary,
           ("ETag".data, mkEtag fi.mtimeNs fi.content.length),
           ("Cache-Control".data, cacheControl (extOf name)),
           ("Last-Modified".data, dtStr (fi.mtimeNs / 1000000000)), hACAO] := by
        simp [serveFile, hin, hu]
      have hG : (serveFile gz dtStr name fi req false).headers =
          [("Content-Type".data, mimeOf (extOf name)),
           ("Content-Length".data, decRep (gz fi.content).length),
           ("ETag".data, mkEtag fi.mtimeNs fi.content.length),
           ("Cache-Control".data, cacheControl (extOf name)),
           ("Last-Modified".data, dtStr (fi.mtimeNs / 1000000000)),
           ("Content-Encoding".data, "gzip".data), hVary, hACAO] := by
        simp [serveFile, hin, hu]
      rw [hH, hG]
      exact perm_gzip_headers _ _ _ _ _ _ _ _

/-- C6 witness: HEAD and GET headers for a compressed `.js` answer are a
permutation of each other. -/
theorem c6_witness :
    List.Perm (serveFile exGz exDt exName exFi exReqGz true).headers
      (serveFile exGz exDt exName exFi exReqGz false).headers :=
  (c6_head_get exGz exDt exName exFi exReqGz).2.1

/-- C6 counterexample: in the compressed case the HEAD and GET header
sequences differ (the compression headers are emitted at different
positions), so the header blocks are not byte-identical as claimed. -/
theorem c6_counterexample :
    (serveFile exGz exDt exName exFi exReqGz true).headers
      ≠ (serveFile exGz exDt exName exFi exReqGz false).headers := by decide

/-- C7: a manifest entry ending in the directory-index suffix
`/index.html` has the `index.html` part stripped before percent-encoding,
so the request path is the encoded directory URL (trailing slash kept);
entries not ending in the suffix are encoded unchanged; and the encoding
leaves every safe character — the path separator `/` among them — intact,
so a path of safe characters is preserved verbatim. -/
theorem c7_request_path :
    (∀ xs : List Char, buildRequestPath (xs ++ indexSuffix) = pquote (xs ++ ['/']))
    ∧ (∀ p, endsWithL p indexSuffix = false → buildRequestPath p = pquote p)
    ∧ (∀ p, (∀ c ∈ p, safeChar c = true) → pquote p = p)
    ∧ safeChar '/' = true := by
  have hsuf : indexSuffix = '/' :: "index.html".data := by decide
  have hlen : indexSuffix.length = 11 := by decide
  refine ⟨?_, ?_, ?_, by decide⟩
  · intro xs
    have hle : indexSuffix.length ≤ (xs ++ indexSuffix).length := by
      rw [List.length_append]
      omega
    have hdrop : (xs ++ indexSuffix).drop ((xs ++ indexSuffix).length - indexSuffix.length)
        = indexSuffix := by
      rw [List.length_append, hlen, show xs.length + 11 - 11 = xs.length from by omega]
      exact dropLen_append xs indexSuffix
    have hew : endsWithL (xs ++ indexSuffix) indexSuffix = true := by
      simp [endsWithL, hle, hdrop]
    have htake : (xs ++ indexSuffix).take ((xs ++ indexSuffix).length - 10) = xs ++ ['/'] := by
      rw [List.length_append, hlen, show xs.length + 11 - 10 = xs.length + 1 from by omega, hsuf]
      exact takeLen_append xs '/' "index.html".data
    unfold buildRequestPath
    rw [if_pos hew, htake]
  · intro p hp
    simp [buildRequestPath, hp]
  · intro p
    induction p with
    | nil => intro _; rfl
    | cons c rest ih =>
      intro hp
      rw [pquote, if_pos (hp c (List.mem_cons_self c rest)),
        ih (fun d hd => hp d (List.mem_cons_of_mem c hd))]

/-- C7 witness: a directory-index entry is requested as the encoded
directory URL, and an all-safe path is encoded unchanged. -/
theorem c7_witness :
    buildRequestPath ("sr/char/1001".data ++ indexSuffix) = pquote ("sr/char/1001".data ++ ['/'])
    ∧ pquote "abc/:x".data = "abc/:x".data :=
  ⟨c7_request_path.1 "sr/char/1001".data, c7_request_path.2.2.1 "abc/:x".data (by decide)⟩

/-- C9 (amended): the failure list `cmd_download` accumulates consists of
exactly the `Failed` outcomes whose reason is not `"404"`, in completion
order; the report is written iff that list is non-empty, and then it holds
exactly one `path<TAB>reason` line per such failure.  (Not-found failures
are counted separately and never reach the report, contradicting the
original claim that every `Failed` outcome is consumed by it —
`c9_counterexample`.) -/
theorem c9_failure_report (os : List (List Char × DlOutcome)) :
    (runTally os).failList = nonNfFails os
    ∧ (failReport os = none ↔ nonNfFails os = [])
    ∧ (∀ L, failReport os = some L → L = ((nonNfFails os).map failLine).flatten) := by
  have h := runTally_failList os
  refine ⟨h, ?_, ?_⟩
  · by_cases he : nonNfFails os = []
    · simp [failReport, h, he]
    · simp [failReport, h, he]
  · intro L hL
    by_cases he : nonNfFails os = []
    · simp [failReport, h, he] at hL
    · simp [failReport, h, he] at hL
      exact hL.symm

/-- C9 witness: with one transport failure and one 404, the report
consists of the non-404 failure. -/
theorem c9_witness :
    (runTally exOs).failList = nonNfFails exOs
    ∧ (failReport exOs = none ↔ nonNfFails exOs = []) :=
  ⟨(c9_failure_report exOs).1, (c9_failure_report exOs).2.1⟩

/-- C9 counterexample: a run whose only outcome is a `Failed{404}` writes
no failure report at all, although a failure occurred — the 404 failure is
not consumed by the report. -/
theorem c9_counterexample :
    failReport exOs404 = none
    ∧ ("p".data, DlOutcome.failedR py404Msg) ∈ exOs404
    ∧ isFailO (DlOutcome.failedR py404Msg) = true := by decide

end HomDGCat
